import Mathlib

/-!
Verification of the pokt-foundation gateway core against its source.

The development shallowly embeds the two source files:

* `src/services/sync-checker.ts` — the `SyncChecker.consensusFilter`
  session health filter (cache lookup, probe lock, per-node sync probes,
  height sort, validity and consensus guards, admission loop, persistence).
* the compiled `V1Controller` — `fetchApp` and
  `fetchRandomLoadBalancerApplication` (application cache discipline and
  load-balancer resolution).

JavaScript machine behaviour is modelled explicitly: numbers coming out of
`parseInt` are either `NaN` or integers (`JsNum`), `Array.prototype.sort`
with a user comparator is the stable insertion sort `jsSort` (any stable
sort produces this result for a consistent comparator), string comparison
is lexicographic, and `JSON.stringify` / `crypto.sha256` are implemented
in full.  Redis and the repositories are external collaborators and enter
as explicit state; every cache command and metric record the code issues
is collected in an effect trace.
-/

namespace Gateway

/-! ## JavaScript stable sort with a comparator

`nodes.sort(cmp)` with `cmp = (a,b) => a.k > b.k ? 1 : (b.k > a.k ? -1 : 0)`
sorts ascending by `k`, keeping the original order of entries the
comparator calls equal (stability is guaranteed by the ECMAScript spec).
`jsSort le` is the stable insertion sort for the predicate
`le a b = (cmp a b <= 0)`. -/

def jsInsert (le : α → α → Bool) (a : α) : List α → List α
  | [] => [a]
  | b :: l => if le a b then a :: b :: l else b :: jsInsert le a l

def jsSort (le : α → α → Bool) : List α → List α
  | [] => []
  | a :: l => jsInsert le a (jsSort le l)

theorem jsInsert_perm (le : α → α → Bool) (a : α) (l : List α) :
    (jsInsert le a l).Perm (a :: l) := by
  induction l with
  | nil => exact List.Perm.refl _
  | cons b l ih =>
      simp only [jsInsert]
      by_cases h : le a b = true
      · simp [h]
      · simp only [h, if_false]
        exact (List.Perm.cons b ih).trans (List.Perm.swap a b l)

theorem jsSort_perm (le : α → α → Bool) (l : List α) : (jsSort le l).Perm l := by
  induction l with
  | nil => exact List.Perm.refl _
  | cons a l ih =>
      exact (jsInsert_perm le a (jsSort le l)).trans (List.Perm.cons a ih)

theorem mem_jsSort (le : α → α → Bool) (l : List α) (a : α) :
    a ∈ jsSort le l ↔ a ∈ l :=
  (jsSort_perm le l).mem_iff

/-- Sortedness of `jsInsert`, assuming the comparator predicate is total
everywhere and transitive on the members involved (for the sync-checker
the comparator is inconsistent on `NaN`, so transitivity is only available
under the hypotheses of the individual claims). -/
theorem jsInsert_sorted (le : α → α → Bool)
    (htot : ∀ x y, le x y = false → le y x = true)
    (a : α) (l : List α)
    (htr : ∀ x ∈ a :: l, ∀ y ∈ a :: l, ∀ z ∈ a :: l,
        le x y = true → le y z = true → le x z = true)
    (hs : l.Pairwise (fun x y => le x y = true)) :
    (jsInsert le a l).Pairwise (fun x y => le x y = true) := by
  induction l with
  | nil => simp [jsInsert]
  | cons b l ih =>
      rcases List.pairwise_cons.mp hs with ⟨hb, hl⟩
      simp only [jsInsert]
      by_cases h : le a b = true
      · simp only [h, if_true]
        refine List.pairwise_cons.mpr ⟨?_, hs⟩
        intro x hx
        rcases List.mem_cons.mp hx with hx | hx
        · subst hx; exact h
        · exact htr a (List.mem_cons_self a _) b
            (List.mem_cons_of_mem a (List.mem_cons_self b _)) x
            (List.mem_cons_of_mem a (List.mem_cons_of_mem b hx)) h (hb x hx)
      · simp only [h, if_false]
        refine List.pairwise_cons.mpr ⟨?_, ?_⟩
        · intro x hx
          rcases List.mem_cons.mp ((jsInsert_perm le a l).mem_iff.mp hx) with hx | hx
          · subst hx
            exact htot x b (by simpa using h)
          · exact hb x hx
        · refine ih ?_ hl
          intro x hx y hy z hz
          have hup : ∀ w, w ∈ a :: l → w ∈ a :: b :: l := by
            intro w hw
            rcases List.mem_cons.mp hw with hw | hw
            · exact hw ▸ List.mem_cons_self a _
            · exact List.mem_cons_of_mem a (List.mem_cons_of_mem b hw)
          exact htr x (hup x hx) y (hup y hy) z (hup z hz)

/-- `jsSort` produces a list that is pairwise `le`-ordered, given a total
comparator that is transitive on the members of the list. -/
theorem jsSort_sorted (le : α → α → Bool)
    (htot : ∀ x y, le x y = false → le y x = true)
    (l : List α)
    (htr : ∀ x ∈ l, ∀ y ∈ l, ∀ z ∈ l,
        le x y = true → le y z = true → le x z = true) :
    (jsSort le l).Pairwise (fun x y => le x y = true) := by
  induction l with
  | nil => simp [jsSort]
  | cons a l ih =>
      simp only [jsSort]
      refine jsInsert_sorted le htot a (jsSort le l) ?_ ?_
      · intro x hx y hy z hz
        have hmem : ∀ w, w ∈ a :: jsSort le l → w ∈ a :: l := by
          intro w hw
          rcases List.mem_cons.mp hw with hw | hw
          · exact hw ▸ List.mem_cons_self a _
          · exact List.mem_cons_of_mem a ((mem_jsSort le l w).mp hw)
        exact htr x (hmem x hx) y (hmem y hy) z (hmem z hz)
      · refine ih ?_
        intro x hx y hy z hz
        exact htr x (List.mem_cons_of_mem a hx) y (List.mem_cons_of_mem a hy)
          z (List.mem_cons_of_mem a hz)

/-! ## JavaScript numbers from `parseInt`

`parseInt(payload.result, 16)` returns either `NaN` or an integer (never a
fraction), so block heights are modelled by `JsNum`.  Comparison and
addition follow IEEE/ECMAScript semantics: every `>`/`>=` comparison
involving `NaN` is false and `NaN + x = NaN`. -/

inductive JsNum where
  | nan : JsNum
  | int : Int → JsNum
deriving DecidableEq, Repr

/-- JavaScript `a > b` on two numbers. -/
def JsNum.gt : JsNum → JsNum → Bool
  | JsNum.int a, JsNum.int b => decide (a > b)
  | _, _ => false

/-- JavaScript `a >= b` on two numbers. -/
def JsNum.ge : JsNum → JsNum → Bool
  | JsNum.int a, JsNum.int b => decide (a ≥ b)
  | _, _ => false

/-- JavaScript `a + z` for an integer right operand. -/
def JsNum.add : JsNum → Int → JsNum
  | JsNum.nan, _ => JsNum.nan
  | JsNum.int a, z => JsNum.int (a + z)

/-! ## UTF-8 and SHA-256 (Node `crypto.createHash`)

`crypto.createHash('sha256').update(s).digest('hex')` hashes the UTF-8
bytes of `s` and prints the digest as 64 lowercase hex characters.  The
implementation below follows FIPS 180-4, with 32-bit words as `Nat`
reduced mod `2^32`. -/

def utf8EncodeChar (c : Char) : List Nat :=
  let n := c.toNat
  if n < 128 then [n]
  else if n < 2048 then [192 + n / 64, 128 + n % 64]
  else if n < 65536 then [224 + n / 4096, 128 + n / 64 % 64, 128 + n % 64]
  else [240 + n / 262144, 128 + n / 4096 % 64, 128 + n / 64 % 64, 128 + n % 64]

def strToBytes (s : String) : List Nat :=
  s.data.foldr (fun c acc => utf8EncodeChar c ++ acc) []

/-- 2 ^ 32. -/
def M32 : Nat := 4294967296

def w32 (n : Nat) : Nat := n % M32

/-- Right-rotation of a 32-bit word. -/
def rotr32 (k x : Nat) : Nat := x / 2 ^ k + x % 2 ^ k * 2 ^ (32 - k)

def bsig0 (x : Nat) : Nat := rotr32 2 x ^^^ rotr32 13 x ^^^ rotr32 22 x

def bsig1 (x : Nat) : Nat := rotr32 6 x ^^^ rotr32 11 x ^^^ rotr32 25 x

def ssig0 (x : Nat) : Nat := rotr32 7 x ^^^ rotr32 18 x ^^^ x / 8

def ssig1 (x : Nat) : Nat := rotr32 17 x ^^^ rotr32 19 x ^^^ x / 1024

def chF (x y z : Nat) : Nat := x &&& y ^^^ ((x ^^^ 4294967295) &&& z)

def majF (x y z : Nat) : Nat := x &&& y ^^^ (x &&& z) ^^^ (y &&& z)

def sha256K : List Nat :=
  [1116352408, 1899447441, 3049323471, 3921009573, 961987163,
   1508970993, 2453635748, 2870763221, 3624381080, 310598401,
   607225278, 1426881987, 1925078388, 2162078206, 2614888103,
   3248222580, 3835390401, 4022224774, 264347078, 604807628,
   770255983, 1249150122, 1555081692, 1996064986, 2554220882,
   2821834349, 2952996808, 3210313671, 3336571891, 3584528711,
   113926993, 338241895, 666307205, 773529912, 1294757372,
   1396182291, 1695183700, 1986661051, 2177026350, 2456956037,
   2730485921, 2820302411, 3259730800, 3345764771, 3516065817,
   3600352804, 4094571909, 275423344, 430227734, 506948616,
   659060556, 883997877, 958139571, 1322822218, 1537002063,
   1747873779, 1955562222, 2024104815, 2227730452, 2361852424,
   2428436474, 2756734187, 3204031479, 3329325298]

def sha256H0 : List Nat :=
  [1779033703, 3144134277, 1013904242, 2773480762,
   1359893119, 2600822924, 528734635, 1541459225]

/-- FIPS 180-4 padding: append `0x80`, zeros to 56 mod 64, then the bit
length as 8 big-endian bytes. -/
def padBytes (msg : List Nat) : List Nat :=
  let bitLen := msg.length * 8
  let k := (119 - msg.length % 64) % 64
  msg ++ 128 :: List.replicate k 0 ++
    [bitLen / 2 ^ 56 % 256, bitLen / 2 ^ 48 % 256, bitLen / 2 ^ 40 % 256,
     bitLen / 2 ^ 32 % 256, bitLen / 2 ^ 24 % 256, bitLen / 2 ^ 16 % 256,
     bitLen / 2 ^ 8 % 256, bitLen % 256]

/-- Big-endian 4-byte grouping (fuel-structured so it computes by
kernel reduction). -/
def bytesToWords : Nat → List Nat → List Nat
  | 0, _ => []
  | _ + 1, b0 :: b1 :: b2 :: b3 :: rest =>
      (b0 * 16777216 + b1 * 65536 + b2 * 256 + b3) :: bytesToWords rest.length rest
  | _ + 1, _ => []

/-- Split into 64-byte blocks. -/
def toBlocks : Nat → List Nat → List (List Nat)
  | 0, _ => []
  | _ + 1, [] => []
  | fuel + 1, l => l.take 64 :: toBlocks fuel (l.drop 64)

/-- One step of the message-schedule extension; the accumulator holds the
schedule so far, most recent word first. -/
def extendStep (acc : List Nat) : List Nat :=
  w32 (ssig1 (acc.getD 1 0) + acc.getD 6 0 + ssig0 (acc.getD 14 0) + acc.getD 15 0) :: acc

def extendW : Nat → List Nat → List Nat
  | 0, acc => acc
  | n + 1, acc => extendW n (extendStep acc)

/-- One compression round; the state is the 8-word vector a..h. -/
def sha256Round (st : List Nat) (kw : Nat × Nat) : List Nat :=
  match st with
  | [a, b, c, d, e, f, g, h] =>
      let t1 := w32 (h + bsig1 e + chF e f g + kw.1 + kw.2)
      let t2 := w32 (bsig0 a + majF a b c)
      [w32 (t1 + t2), a, b, c, w32 (d + t1), e, f, g]
  | st => st

def sha256Block (hv : List Nat) (block16 : List Nat) : List Nat :=
  let w := (extendW 48 block16.reverse).reverse
  let st := (sha256K.zip w).foldl sha256Round hv
  (hv.zip st).map (fun p => w32 (p.1 + p.2))

/-- The eight 32-bit digest words of SHA-256 over a byte list. -/
def sha256Words (msg : List Nat) : List Nat :=
  let padded := padBytes msg
  (toBlocks padded.length padded).foldl
    (fun hv blk => sha256Block hv (bytesToWords blk.length blk)) sha256H0

def hexDigit (n : Nat) : Char := "0123456789abcdef".data.getD n '0'

def wordToHex (w : Nat) : String :=
  String.mk [hexDigit (w / 16 ^ 7 % 16), hexDigit (w / 16 ^ 6 % 16),
    hexDigit (w / 16 ^ 5 % 16), hexDigit (w / 16 ^ 4 % 16),
    hexDigit (w / 16 ^ 3 % 16), hexDigit (w / 16 ^ 2 % 16),
    hexDigit (w / 16 % 16), hexDigit (w % 16)]

/-- `crypto.createHash('sha256').update(s).digest('hex')`. -/
def sha256HexOfString (s : String) : String :=
  String.join ((sha256Words (strToBytes s)).map wordToHex)

/-! ## JSON.stringify for the values the gateway serializes -/

def jsonEscapeChar (c : Char) : List Char :=
  if c = '"' then ['\\', '"']
  else if c = '\\' then ['\\', '\\']
  else if c = '\x08' then ['\\', 'b']
  else if c = '\t' then ['\\', 't']
  else if c = '\n' then ['\\', 'n']
  else if c = '\x0c' then ['\\', 'f']
  else if c = '\r' then ['\\', 'r']
  else if c.toNat < 32 then
    ['\\', 'u', '0', '0', hexDigit (c.toNat / 16), hexDigit (c.toNat % 16)]
  else [c]

/-- `JSON.stringify` of a string value. -/
def jsonString (s : String) : String :=
  "\"" ++ String.mk (s.data.foldr (fun c acc => jsonEscapeChar c ++ acc) []) ++ "\""

/-- Comma-join of already-serialized JSON array elements. -/
def strJoinComma : List String → String
  | [] => ""
  | [e] => e
  | e :: rest => e ++ "," ++ strJoinComma rest

/-- `JSON.stringify` of an array of strings. -/
def jsonStrArray (l : List String) : String :=
  "[" ++ strJoinComma (l.map jsonString) ++ "]"


/-! ## Session nodes and the session fingerprint

`Node` is the pocket-js session node, restricted to the fields this code
reads: `publicKey` (sort key and cache identity) and `serviceURL`
standing for the remaining serialized payload.  `sync-checker.ts` line 24
computes the cache key as

  blockchain + "-" + sha256(JSON.stringify(nodes.sort(byPublicKey), elidePublicKey))

where the replacer `(k, v) => k != "publicKey" ? v : undefined` drops the
`publicKey` field and the sort is the in-place ascending stable sort by
`publicKey` (JavaScript string comparison, i.e. lexicographic). -/

/-- Lexicographic comparison of character lists by code point. -/
def charListLt : List Char → List Char → Bool
  | [], [] => false
  | [], _ :: _ => true
  | _ :: _, [] => false
  | a :: as, b :: bs =>
      if a.toNat < b.toNat then true
      else if b.toNat < a.toNat then false
      else charListLt as bs

theorem charListLt_asymm : ∀ x y, charListLt x y = true → charListLt y x = false := by
  intro x
  induction x with
  | nil =>
      intro y h
      cases y with
      | nil => simp [charListLt] at h
      | cons b bs => simp [charListLt]
  | cons a as ih =>
      intro y h
      cases y with
      | nil => simp [charListLt] at h
      | cons b bs =>
          simp only [charListLt] at h ⊢
          by_cases h1 : a.toNat < b.toNat
          · have h2 : ¬ b.toNat < a.toNat := Nat.lt_asymm h1
            simp [h1, h2]
          · by_cases h2 : b.toNat < a.toNat
            · simp [h1, h2] at h
            · simp only [h1, h2, if_false] at h
              simp [h1, h2, ih bs h]

theorem charListLt_negtrans : ∀ x y z, charListLt x y = false →
    charListLt y z = false → charListLt x z = false := by
  intro x
  induction x with
  | nil =>
      intro y z hxy hyz
      cases y with
      | nil => exact hyz
      | cons b bs =>
          cases z with
          | nil => simp [charListLt]
          | cons c cs => simp [charListLt] at hxy
  | cons a as ih =>
      intro y z hxy hyz
      cases y with
      | nil =>
          cases z with
          | nil => simp [charListLt]
          | cons c cs => simp [charListLt] at hyz
      | cons b bs =>
          cases z with
          | nil => simp [charListLt]
          | cons c cs =>
              simp only [charListLt] at hxy hyz ⊢
              by_cases hab : a.toNat < b.toNat
              · simp [hab] at hxy
              · by_cases hbc : b.toNat < c.toNat
                · simp [hbc] at hyz
                · by_cases hba : b.toNat < a.toNat
                  · have hca : c.toNat < a.toNat := by omega
                    simp [Nat.lt_asymm hca, hca]
                  · have hae : a.toNat = b.toNat := by omega
                    by_cases hcb2 : c.toNat < b.toNat
                    · have hca : c.toNat < a.toNat := by omega
                      simp [Nat.lt_asymm hca, hca]
                    · have hbe : b.toNat = c.toNat := by omega
                      have hac : a.toNat = c.toNat := by omega
                      simp only [hac, Nat.lt_irrefl, if_false]
                      simp only [hab, if_false] at hxy
                      simp only [hbc, if_false] at hyz
                      rw [hae] at hxy
                      simp only [Nat.lt_irrefl, if_false] at hxy
                      rw [hbe] at hyz
                      simp only [Nat.lt_irrefl, if_false] at hyz
                      exact ih bs cs hxy hyz

theorem charListLt_eq_of_not_lt : ∀ x y, charListLt x y = false →
    charListLt y x = false → x = y := by
  intro x
  induction x with
  | nil =>
      intro y hxy _
      cases y with
      | nil => rfl
      | cons b bs => simp [charListLt] at hxy
  | cons a as ih =>
      intro y hxy hyx
      cases y with
      | nil => simp [charListLt] at hyx
      | cons b bs =>
          simp only [charListLt] at hxy hyx
          by_cases hab : a.toNat < b.toNat
          · simp [hab] at hxy
          · by_cases hba : b.toNat < a.toNat
            · simp [hba] at hyx
            · have htn : a.toNat = b.toNat := by omega
              have hae : a = b := Char.ext (UInt32.ext htn)
              simp only [hab, hba, if_false] at hxy hyx
              rw [hae, ih bs hxy hyx]

/-- JavaScript string `<`. -/
def jsStrLt (a b : String) : Bool := charListLt a.data b.data

structure Node where
  publicKey : String
  serviceURL : String
deriving DecidableEq, Repr

/-- The line-24 comparator maps to "keep `a` before `b`" exactly when
`a.publicKey > b.publicKey` is false; JavaScript compares strings
lexicographically by code unit, modelled on the code points. -/
def nodeLe (a b : Node) : Bool := !(jsStrLt b.publicKey a.publicKey)

/-- In-place `nodes.sort((a,b) => a.publicKey > b.publicKey ? 1 : ...)`. -/
def sortNodesByPublicKey (nodes : List Node) : List Node := jsSort nodeLe nodes

/-- `JSON.stringify` of one node under the publicKey-eliding replacer. -/
def nodeJsonElided (n : Node) : String :=
  "\x7b\"serviceURL\":" ++ jsonString n.serviceURL ++ "\x7d"

def nodeSetJsonOfSorted (sorted : List Node) : String :=
  "[" ++ strJoinComma (sorted.map nodeJsonElided) ++ "]"

/-- The canonical JSON the checker hashes: node set sorted by publicKey,
publicKey field elided. -/
def canonicalNodeSetJson (nodes : List Node) : String :=
  nodeSetJsonOfSorted (sortNodesByPublicKey nodes)

/-- The 64-hex session fingerprint. -/
def sessionFingerprint (nodes : List Node) : String :=
  sha256HexOfString (canonicalNodeSetJson nodes)

/-- The sync cache key (`sync-checker.ts` line 24). -/
def syncedNodesKeyOf (blockchain : String) (nodes : List Node) : String :=
  blockchain ++ "-" ++ sessionFingerprint nodes

/-! ## SyncChecker.consensusFilter

The filter is embedded as a pure function of its external collaborators:

* `redis : String -> Option RedisVal` — point-in-time cache content; a
  stored JSON value is kept in parsed form (`JSON.parse` inverts the
  `JSON.stringify` the checker writes), `none` is a missing/expired key
  (both `get` misses and falsy replies).
* `probe : Node -> ProbeOutcome` — the outcome of the `synccheck` relay
  for a node: a `RelayResponse` abstracted to its parsed block height
  `parseInt(payload.result, 16)` (`NaN` or an integer), or a `RelayError`
  with its message string.

All redis commands, metric records, probed nodes, the challenge-relay
decision, and the final content of the caller's (in-place sorted) array
are returned in a `SyncRun` trace. -/

structure NodeSyncLog where
  node : Node
  blockchain : String
  blockHeight : JsNum
deriving DecidableEq, Repr

inductive ProbeOutcome where
  | response (blockHeight : JsNum)
  | relayError (message : String)
deriving DecidableEq, Repr

inductive RedisVal where
  | str (s : String)
  | strList (l : List String)
deriving DecidableEq, Repr

/-- `JSON.parse` of a cached synced-nodes value, as the string list the
membership test reads.  (The checker only ever stores string arrays at
that key.) -/
def RedisVal.asStrList : RedisVal → List String
  | RedisVal.strList l => l
  | RedisVal.str _ => []

inductive RedisOp where
  | get (key : String)
  | setEx (key value : String) (ttl : Nat)
  | setNxEx (key value : String) (ttl : Nat)
deriving DecidableEq, Repr

/-- A `recordMetric` call, restricted to the fields that distinguish the
two call sites: the probe-failure record carries the relay error message
and the real `relayStart`; the admission loop's record carries the
constant error `OUT OF SYNC` (11 bytes) and `relayStart = [0, 0]`. -/
structure MetricRecord where
  serviceNode : String
  error : String
  bytes : Nat
  relayStartZero : Bool
deriving DecidableEq, Repr

structure SyncRun where
  result : List Node
  nodesAfter : List Node
  ops : List RedisOp
  metrics : List MetricRecord
  probed : List Node
  challenged : Bool
deriving DecidableEq, Repr

/-- Line 110 comparator: ascending by `blockHeight` under JavaScript `>`
(note: the source comment says the list is then read as highest-first,
but this comparator orders lowest-first). -/
def syncLogLe (a b : NodeSyncLog) : Bool := !(JsNum.gt a.blockHeight b.blockHeight)

/-- Lines 113-117: `h === 0 || typeof h !== 'number' || h % 1 !== 0`.
For a `parseInt` result this is true exactly on `NaN` and `0`. -/
def topHeightInvalid : JsNum → Bool
  | JsNum.nan => true
  | JsNum.int n => decide (n = 0)

structure AdmitResult where
  result : List Node
  metrics : List MetricRecord
  ops : List RedisOp
  challenged : Bool
deriving DecidableEq, Repr

/-- Lines 109-188: sort the probe logs, run the validity and consensus
guards, admit, persist, and decide the challenge relay.  `nodes` is the
(sorted) session array returned by the fail-open guards.  The caller
guarantees at least 3 logs; the `[]`/singleton matches are unreachable. -/
def syncAdmitPhase (syncAllowance : Int) (nodes : List Node) (key : String)
    (nodeSyncLogs : List NodeSyncLog) : AdmitResult :=
  match jsSort syncLogLe nodeSyncLogs with
  | [] => ⟨nodes, [], [], false⟩
  | l0 :: rest =>
    if topHeightInvalid l0.blockHeight then ⟨nodes, [], [], false⟩
    else
      match rest with
      | [] => ⟨nodes, [], [], false⟩
      | l1 :: _ =>
        if JsNum.gt l0.blockHeight (JsNum.add l1.blockHeight 1) then
          ⟨nodes, [], [], false⟩
        else
          let currentBlockHeight := l0.blockHeight
          let sorted := jsSort syncLogLe nodeSyncLogs
          let inSync := fun (l : NodeSyncLog) =>
            JsNum.ge (JsNum.add l.blockHeight syncAllowance) currentBlockHeight
          let synced := sorted.filter inSync
          let syncedNodes := synced.map (fun l => l.node)
          let syncedNodesList := synced.map (fun l => l.node.publicKey)
          let behindMetrics := sorted.filterMap (fun l =>
            if inSync l then none
            else some ⟨l.node.publicKey, "OUT OF SYNC", 11, true⟩)
          ⟨syncedNodes, behindMetrics,
            [RedisOp.setEx key (jsonStrArray syncedNodesList) 300],
            decide (syncedNodes.length < 5)⟩


/-- The `NodeSyncLog` entries collected by the probe loop (lines 53-101),
in probe order: one per node whose relay came back as a `RelayResponse`. -/
def syncLogsOf (blockchain : String) (nodes : List Node)
    (probe : Node → ProbeOutcome) : List NodeSyncLog :=
  nodes.filterMap (fun n =>
    match probe n with
    | ProbeOutcome.response h => some ⟨n, blockchain, h⟩
    | ProbeOutcome.relayError _ => none)

/-- The failure metrics recorded by the probe loop: one per node whose
relay came back as a `RelayError`. -/
def probeFailMetricsOf (nodes : List Node) (probe : Node → ProbeOutcome) :
    List MetricRecord :=
  nodes.filterMap (fun n =>
    match probe n with
    | ProbeOutcome.response _ => none
    | ProbeOutcome.relayError m =>
        some ⟨n.publicKey, m, (strToBytes m).length, false⟩)

/-- `SyncChecker.consensusFilter` (lines 18-189). -/
def consensusFilter (nodes : List Node) (syncAllowance : Int) (blockchain : String)
    (redis : String → Option RedisVal) (probe : Node → ProbeOutcome) : SyncRun :=
  let sortedNodes := sortNodesByPublicKey nodes
  let key := syncedNodesKeyOf blockchain nodes
  match redis key with
  | some v =>
      let syncedNodesList := v.asStrList
      { result := sortedNodes.filter (fun n => syncedNodesList.contains n.publicKey),
        nodesAfter := sortedNodes, ops := [RedisOp.get key],
        metrics := [], probed := [], challenged := false }
  | none =>
      match redis ("lock-" ++ key) with
      | some _ =>
          { result := sortedNodes, nodesAfter := sortedNodes,
            ops := [RedisOp.get key, RedisOp.get ("lock-" ++ key)],
            metrics := [], probed := [], challenged := false }
      | none =>
          let lockOps := [RedisOp.get key, RedisOp.get ("lock-" ++ key),
                          RedisOp.setEx ("lock-" ++ key) "true" 60]
          let nodeSyncLogs := syncLogsOf blockchain sortedNodes probe
          let probeMetrics := probeFailMetricsOf sortedNodes probe
          if nodeSyncLogs.length ≤ 2 then
            { result := sortedNodes, nodesAfter := sortedNodes, ops := lockOps,
              metrics := probeMetrics, probed := sortedNodes, challenged := false }
          else
            let phase := syncAdmitPhase syncAllowance sortedNodes key nodeSyncLogs
            { result := phase.result, nodesAfter := sortedNodes,
              ops := lockOps ++ phase.ops,
              metrics := probeMetrics ++ phase.metrics,
              probed := sortedNodes, challenged := phase.challenged }


/-! ## V1Controller: fetchApp and fetchRandomLoadBalancerApplication

The controller reads two kinds of cached values from the shared redis:
application records under the raw application ID and verified-ID lists
under `applicationIDs-` + load-balancer ID (the two key families are
disjoint, so they are modelled as two typed maps in `GatewayState`).
`JSON.stringify`/`JSON.parse` round-trip the stored records, so cache
values are kept in parsed form.  `applicationsRepository.findById` is the
external repository: `some` is the found record, `none` a missing ID
(the code guards the result with `application?.id`).  Every repository
call and cache write is logged in an `AppEvent` trace; cache writes carry
their TTL in seconds. -/

structure Applications where
  id : String
  publicKey : String
deriving DecidableEq, Repr

structure GatewayState where
  appCache : String → Option Applications
  idsCache : String → Option (List String)

def setAppCache (st : GatewayState) (k : String) (a : Applications) : GatewayState :=
  ⟨fun q => if q = k then some a else st.appCache q, st.idsCache⟩

def setIdsCache (st : GatewayState) (k : String) (l : List String) : GatewayState :=
  ⟨st.appCache, fun q => if q = k then some l else st.idsCache q⟩

inductive AppEvent where
  | repoFind (id : String)
  | cacheWriteApp (key : String) (app : Applications) (ttl : Nat)
  | cacheWriteIds (key : String) (ids : List String) (ttl : Nat)
deriving DecidableEq, Repr

inductive HttpError where
  | forbidden (message : String)
  | entityNotFound (id : String)
deriving DecidableEq, Repr

/-- `HttpErrors.Forbidden` carries HTTP status 403; a repository
`findById` rejection for a missing entity surfaces as 404. -/
def HttpError.status : HttpError → Nat
  | HttpError.forbidden _ => 403
  | HttpError.entityNotFound _ => 404

/-- `V1Controller.fetchApp` (part_000 lines 94-102): redis first, then the
repository, caching the fetched record for 60 seconds. -/
def fetchApp (repo : String → Option Applications) (st : GatewayState)
    (id : String) : Option Applications × GatewayState × List AppEvent :=
  match st.appCache id with
  | some a => (some a, st, [])
  | none =>
      match repo id with
      | some application =>
          (some application, setAppCache st id application,
           [AppEvent.repoFind id, AppEvent.cacheWriteApp id application 60])
      | none => (none, st, [AppEvent.repoFind id])

/-- The verification loop of part_000 lines 76-81: fetch every referenced
application through `fetchApp` (threading the cache writes), pushing
`application.id` when it is truthy (JavaScript: the only falsy string is
the empty one). -/
def verifyLoop (repo : String → Option Applications) (st : GatewayState) :
    List String → List String × GatewayState × List AppEvent
  | [] => ([], st, [])
  | applicationID :: rest =>
      let fa := fetchApp repo st applicationID
      let vr := verifyLoop repo fa.2.1 rest
      match fa.1 with
      | some application =>
          (if application.id ≠ "" then application.id :: vr.1 else vr.1,
           vr.2.1, fa.2.2 ++ vr.2.2)
      | none => (vr.1, vr.2.1, fa.2.2 ++ vr.2.2)

/-- `Math.floor(Math.random() * len)`: `Math.random` draws from `[0, 1)`,
modelled as an exact rational. -/
def jsRandomIndex (r : ℚ) (len : Nat) : Nat := (⌊r * len⌋).toNat

/-- `V1Controller.fetchRandomLoadBalancerApplication` (part_000 lines
71-92), with the random draw `pick = Math.floor(Math.random() *
verifiedIDs.length)` passed explicitly. -/
def fetchRandomLoadBalancerApplication (repo : String → Option Applications)
    (st : GatewayState) (lbId : String) (applicationIDs : List String)
    (pick : Nat) : Except HttpError Applications × GatewayState × List AppEvent :=
  let idsKey := "applicationIDs-" ++ lbId
  match st.idsCache idsKey with
  | none =>
      let vl := verifyLoop repo st applicationIDs
      let verifiedIDs := vl.1
      let st2 := setIdsCache vl.2.1 idsKey verifiedIDs
      let evs := vl.2.2 ++ [AppEvent.cacheWriteIds idsKey verifiedIDs 60]
      if verifiedIDs.length < 1 then
        (Except.error (HttpError.forbidden "Load Balancer configuration invalid"),
         st2, evs)
      else
        let fa := fetchApp repo st2 (verifiedIDs.getD pick "")
        match fa.1 with
        | some a => (Except.ok a, fa.2.1, evs ++ fa.2.2)
        | none =>
            (Except.error (HttpError.entityNotFound (verifiedIDs.getD pick "")),
             fa.2.1, evs ++ fa.2.2)
  | some verifiedIDs =>
      if verifiedIDs.length < 1 then
        (Except.error (HttpError.forbidden "Load Balancer configuration invalid"),
         st, [])
      else
        let fa := fetchApp repo st (verifiedIDs.getD pick "")
        match fa.1 with
        | some a => (Except.ok a, fa.2.1, fa.2.2)
        | none =>
            (Except.error (HttpError.entityNotFound (verifiedIDs.getD pick "")),
             fa.2.1, fa.2.2)


/-! ## Helper lemmas about the publicKey sort -/

theorem nodeLe_total (x y : Node) (h : nodeLe x y = false) : nodeLe y x = true := by
  unfold nodeLe at h ⊢
  simp only [Bool.not_eq_false'] at h
  simp only [Bool.not_eq_true']
  exact charListLt_asymm _ _ h

theorem nodeLe_trans (x y z : Node) (hxy : nodeLe x y = true)
    (hyz : nodeLe y z = true) : nodeLe x z = true := by
  unfold nodeLe at hxy hyz ⊢
  simp only [Bool.not_eq_true'] at hxy hyz ⊢
  exact charListLt_negtrans _ _ _ hyz hxy

theorem sortNodes_perm (l : List Node) : (sortNodesByPublicKey l).Perm l :=
  jsSort_perm nodeLe l

theorem mem_sortNodes (l : List Node) (a : Node) :
    a ∈ sortNodesByPublicKey l ↔ a ∈ l :=
  (sortNodes_perm l).mem_iff

theorem sortNodes_sorted (l : List Node) :
    (sortNodesByPublicKey l).Pairwise (fun a b => nodeLe a b = true) :=
  jsSort_sorted nodeLe nodeLe_total l
    (fun x _ y _ z _ hxy hyz => nodeLe_trans x y z hxy hyz)

/-- The `nodesAfter` component — the content of the caller's array after
the in-place sort on line 24 — is the sorted list on every branch. -/
theorem consensusFilter_nodesAfter (nodes : List Node) (sa : Int) (bc : String)
    (redis : String → Option RedisVal) (probe : Node → ProbeOutcome) :
    (consensusFilter nodes sa bc redis probe).nodesAfter =
      sortNodesByPublicKey nodes := by
  unfold consensusFilter
  dsimp only
  split
  · rfl
  · split
    · rfl
    · split
      · rfl
      · rfl

/-- C10: `consensusFilter` mutates its input: on every call — cache hit,
fail-open, or full probe pass — the caller's array ends up sorted in
place ascending by `publicKey` as a side effect of computing the session
fingerprint on line 24: afterwards it is a publicKey-sorted permutation
of its original contents, with the very same node objects (no field
modified). -/
theorem consensusFilter_sorts_caller_array (nodes : List Node) (sa : Int)
    (bc : String) (redis : String → Option RedisVal)
    (probe : Node → ProbeOutcome) :
    (consensusFilter nodes sa bc redis probe).nodesAfter =
        sortNodesByPublicKey nodes ∧
      ((consensusFilter nodes sa bc redis probe).nodesAfter).Perm nodes ∧
      ((consensusFilter nodes sa bc redis probe).nodesAfter).Pairwise
        (fun a b => nodeLe a b = true) := by
  refine ⟨consensusFilter_nodesAfter nodes sa bc redis probe, ?_, ?_⟩
  · rw [consensusFilter_nodesAfter]
    exact sortNodes_perm nodes
  · rw [consensusFilter_nodesAfter]
    exact sortNodes_sorted nodes

/-! ## Concrete probe fixtures for the evaluation theorems -/

def tNodes : List Node :=
  [⟨"a", "ua"⟩, ⟨"b", "ub"⟩, ⟨"c", "uc"⟩, ⟨"d", "ud"⟩]

/-- Probe heights a ↦ 100, b ↦ 100, c ↦ 99, d ↦ 98. -/
def probeC1 : Node → ProbeOutcome := fun n =>
  ProbeOutcome.response (JsNum.int
    (if n.publicKey = "c" then 99 else if n.publicKey = "d" then 98 else 100))

/-- Probe heights a ↦ 100, b ↦ 100, c ↦ 100, d ↦ 90. -/
def probeC2 : Node → ProbeOutcome := fun n =>
  ProbeOutcome.response (JsNum.int (if n.publicKey = "d" then 90 else 100))

/-- Probe heights a ↦ 200, b ↦ 100, c ↦ 100, d ↦ 100. -/
def probeC2b : Node → ProbeOutcome := fun n =>
  ProbeOutcome.response (JsNum.int (if n.publicKey = "a" then 200 else 100))

/-- C1: evaluation of the code at the claim's failing input.  With probe
heights [100, 100, 99, 98] and syncAllowance 1 the claim demands exactly
the three nodes at heights [100, 100, 99]; the code instead returns all
four nodes (in ascending height order d, c, a, b), because line 110 sorts
the probe logs ascending, so the "currentBlockHeight" reference taken
from index 0 is the lowest probed height (98), not the highest. -/
theorem consensusFilter_C1_failing_input_returns_all_four :
    ((consensusFilter tNodes 1 "0021" (fun _ => none) probeC1).result).map
        Node.publicKey = ["d", "c", "a", "b"] ∧
      ((consensusFilter tNodes 1 "0021" (fun _ => none) probeC1).result).length
        = 4 := by
  constructor
  · decide
  · decide

/-- C2: evaluation of the code at the claim's failing input.  With probe
heights [100, 100, 100, 90] and syncAllowance 1 the claim demands exactly
the three nodes at height 100; the code returns all four (the ascending
sort makes the index-0/index-1 "consensus guard" of line 124 compare the
two lowest heights, which never differ by more than one in sorted
ascending order, and the admission reference is the minimum).  For
heights [200, 100, 100, 100] all four are returned, as the claim states,
though via the vacuous admission rather than the guard. -/
theorem consensusFilter_C2_failing_input_returns_all_four :
    ((consensusFilter tNodes 1 "0021" (fun _ => none) probeC2).result).map
        Node.publicKey = ["d", "a", "b", "c"] ∧
      ((consensusFilter tNodes 1 "0021" (fun _ => none) probeC2b).result).map
        Node.publicKey = ["b", "c", "d", "a"] := by
  constructor
  · decide
  · decide


/-! ## Branch lemmas for consensusFilter -/

theorem mem_syncLogsOf_node (bc : String) (nodes : List Node)
    (probe : Node → ProbeOutcome) (l : NodeSyncLog)
    (h : l ∈ syncLogsOf bc nodes probe) : l.node ∈ nodes := by
  unfold syncLogsOf at h
  rcases List.mem_filterMap.mp h with ⟨n, hn, he⟩
  cases hp : probe n with
  | response hgt =>
      rw [hp] at he
      simp only [Option.some.injEq] at he
      rw [← he]
      exact hn
  | relayError m =>
      rw [hp] at he
      simp at he

theorem mem_syncAdmitPhase_result (sa : Int) (nodes : List Node) (key : String)
    (logs : List NodeSyncLog) (x : Node)
    (h : x ∈ (syncAdmitPhase sa nodes key logs).result) :
    x ∈ nodes ∨ ∃ l ∈ logs, x = l.node := by
  unfold syncAdmitPhase at h
  split at h
  · exact Or.inl h
  · split at h
    · exact Or.inl h
    · split at h
      · exact Or.inl h
      · split at h
        · exact Or.inl h
        · dsimp only at h
          rcases List.mem_map.mp h with ⟨l, hl, he⟩
          refine Or.inr ⟨l, ?_, he.symm⟩
          exact (mem_jsSort syncLogLe logs l).mp (List.mem_filter.mp hl).1

/-- C6: every node returned by `consensusFilter` — from the cache-hit
branch, a fail-open branch, or the probe pass — is a member of the input
node list, and on a cache hit the result is exactly the (sorted) input
nodes whose publicKey appears in the cached list; hence a cached
synced-nodes list never admits a node from outside the session's current
node set. -/
theorem consensusFilter_result_subset (nodes : List Node) (sa : Int)
    (bc : String) (redis : String → Option RedisVal)
    (probe : Node → ProbeOutcome) :
    (∀ n ∈ (consensusFilter nodes sa bc redis probe).result, n ∈ nodes) ∧
      (∀ v, redis (syncedNodesKeyOf bc nodes) = some v →
        (consensusFilter nodes sa bc redis probe).result =
          (sortNodesByPublicKey nodes).filter
            (fun n => (RedisVal.asStrList v).contains n.publicKey)) := by
  constructor
  · intro n hn
    unfold consensusFilter at hn
    dsimp only at hn
    split at hn
    · exact (mem_sortNodes nodes n).mp (List.mem_filter.mp hn).1
    · split at hn
      · exact (mem_sortNodes nodes n).mp hn
      · split at hn
        · exact (mem_sortNodes nodes n).mp hn
        · rcases mem_syncAdmitPhase_result _ _ _ _ n hn with hs | ⟨l, hl, he⟩
          · exact (mem_sortNodes nodes n).mp hs
          · have hnode := mem_syncLogsOf_node bc (sortNodesByPublicKey nodes)
              probe l hl
            rw [he]
            exact (mem_sortNodes nodes l.node).mp hnode
  · intro v hv
    unfold consensusFilter
    dsimp only
    rw [hv]

/-- C6 witness: the subset statement and the cache-hit equation evaluated
at a concrete session. -/
theorem consensusFilter_result_subset_witness :
    (consensusFilter tNodes 1 "0021"
        (fun _ => some (RedisVal.strList ["b", "d"])) probeC1).result =
      (sortNodesByPublicKey tNodes).filter
        (fun n => (RedisVal.asStrList (RedisVal.strList ["b", "d"])).contains
          n.publicKey) :=
  (consensusFilter_result_subset tNodes 1 "0021"
    (fun _ => some (RedisVal.strList ["b", "d"])) probeC1).2
    (RedisVal.strList ["b", "d"]) rfl

/-- Probe outcome with only two successful responses (`c` and `d` fail
with a relay error). -/
def probeErr2 : Node → ProbeOutcome := fun n =>
  if n.publicKey = "c" ∨ n.publicKey = "d" then ProbeOutcome.relayError "timeout"
  else ProbeOutcome.response (JsNum.int 100)

/-- C5: on the probe path (cache miss, no lock), when fewer than 3 probes
succeed (at most 2 `NodeSyncLog` entries) the function returns the full
(sorted-in-place) input node list; when 3 or more succeed it proceeds to
the validation/consensus/admission phase, whose output it returns.
(The error log emitted in the first case is outside the model.) -/
theorem consensusFilter_probe_count_fail_open (nodes : List Node) (sa : Int)
    (bc : String) (redis : String → Option RedisVal)
    (probe : Node → ProbeOutcome)
    (hmiss : redis (syncedNodesKeyOf bc nodes) = none)
    (hnolock : redis ("lock-" ++ syncedNodesKeyOf bc nodes) = none) :
    ((syncLogsOf bc (sortNodesByPublicKey nodes) probe).length ≤ 2 →
        (consensusFilter nodes sa bc redis probe).result =
            sortNodesByPublicKey nodes ∧
          ((consensusFilter nodes sa bc redis probe).result).Perm nodes) ∧
      (3 ≤ (syncLogsOf bc (sortNodesByPublicKey nodes) probe).length →
        (consensusFilter nodes sa bc redis probe).result =
          (syncAdmitPhase sa (sortNodesByPublicKey nodes)
            (syncedNodesKeyOf bc nodes)
            (syncLogsOf bc (sortNodesByPublicKey nodes) probe)).result) := by
  unfold consensusFilter
  dsimp only
  rw [hmiss, hnolock]
  constructor
  · intro hlen
    rw [if_pos hlen]
    exact ⟨rfl, sortNodes_perm nodes⟩
  · intro hlen
    rw [if_neg (by omega)]

/-- C5 witness: with exactly two successful probes the concrete session is
returned whole. -/
theorem consensusFilter_probe_count_fail_open_witness :
    (consensusFilter tNodes 1 "0021" (fun _ => none) probeErr2).result =
      sortNodesByPublicKey tNodes :=
  ((consensusFilter_probe_count_fail_open tNodes 1 "0021" (fun _ => none)
    probeErr2 rfl rfl).1 (by decide)).1

def RedisOp.isSetNx : RedisOp → Bool
  | RedisOp.setNxEx _ _ _ => true
  | _ => false

/-- C7 (amended): on a sync-cache miss, if the lock key is present the
input (sorted-in-place) node list is returned unchanged and no node is
probed; otherwise the lock key is written with value "true" and a
60-second TTL by a plain `SET` with `EX` — issued after the separate
`GET` check and before the probes — and the probe pass runs.  The
checker never issues an atomic `SET ... NX` command. -/
theorem consensusFilter_probe_lock (nodes : List Node) (sa : Int)
    (bc : String) (redis : String → Option RedisVal)
    (probe : Node → ProbeOutcome)
    (hmiss : redis (syncedNodesKeyOf bc nodes) = none) :
    (∀ v, redis ("lock-" ++ syncedNodesKeyOf bc nodes) = some v →
        (consensusFilter nodes sa bc redis probe).result =
            sortNodesByPublicKey nodes ∧
          ((consensusFilter nodes sa bc redis probe).result).Perm nodes ∧
          (consensusFilter nodes sa bc redis probe).probed = []) ∧
      (redis ("lock-" ++ syncedNodesKeyOf bc nodes) = none →
        (∃ rest, (consensusFilter nodes sa bc redis probe).ops =
            RedisOp.get (syncedNodesKeyOf bc nodes) ::
            RedisOp.get ("lock-" ++ syncedNodesKeyOf bc nodes) ::
            RedisOp.setEx ("lock-" ++ syncedNodesKeyOf bc nodes) "true" 60 ::
            rest) ∧
          (consensusFilter nodes sa bc redis probe).probed =
            sortNodesByPublicKey nodes) ∧
      (∀ op ∈ (consensusFilter nodes sa bc redis probe).ops,
        op.isSetNx = false) := by
  refine ⟨?_, ?_, ?_⟩
  · intro v hv
    unfold consensusFilter
    dsimp only
    rw [hmiss, hv]
    exact ⟨rfl, sortNodes_perm nodes, rfl⟩
  · intro hnolock
    unfold consensusFilter
    dsimp only
    rw [hmiss, hnolock]
    by_cases hlen : (syncLogsOf bc (sortNodesByPublicKey nodes) probe).length ≤ 2
    · rw [if_pos hlen]
      exact ⟨⟨[], rfl⟩, rfl⟩
    · rw [if_neg hlen]
      exact ⟨⟨_, rfl⟩, rfl⟩
  · intro op hop
    unfold consensusFilter at hop
    dsimp only at hop
    rw [hmiss] at hop
    cases hl : redis ("lock-" ++ syncedNodesKeyOf bc nodes) with
    | some v =>
        rw [hl] at hop
        dsimp only at hop
        simp only [List.mem_cons, List.not_mem_nil, or_false] at hop
        rcases hop with h | h
        · rw [h]; rfl
        · rw [h]; rfl
    | none =>
        rw [hl] at hop
        dsimp only at hop
        split at hop
        · dsimp only at hop
          simp only [List.mem_cons, List.not_mem_nil, or_false] at hop
          rcases hop with h | h | h
          · rw [h]; rfl
          · rw [h]; rfl
          · rw [h]; rfl
        · dsimp only at hop
          rcases List.mem_append.mp hop with h | h
          · simp only [List.mem_cons, List.not_mem_nil, or_false] at h
            rcases h with h | h | h
            · rw [h]; rfl
            · rw [h]; rfl
            · rw [h]; rfl
          · revert h
            unfold syncAdmitPhase
            split
            · intro h; simp at h
            · split
              · intro h; simp at h
              · split
                · intro h; simp at h
                · split
                  · intro h; simp at h
                  · dsimp only
                    intro h
                    simp only [List.mem_cons, List.not_mem_nil, or_false] at h
                    rw [h]; rfl

/-- C7 witness: the amended behaviour on a concrete cache-miss,
lock-free run — the plain `SET EX 60` of the lock key leads the probe
trace and the whole session is probed. -/
theorem consensusFilter_probe_lock_witness :
    (consensusFilter tNodes 1 "0021" (fun _ => none) probeC1).probed =
      sortNodesByPublicKey tNodes :=
  ((consensusFilter_probe_lock tNodes 1 "0021" (fun _ => none)
    probeC1 rfl).2.1 rfl).2

/-- C7 counterexample: the claim as stated says the lock is acquired via
an atomic `SET` with `NX` and `EX=60`; on a concrete cache-miss,
lock-free run the checker probes the whole session yet its command trace
contains no `NX` operation at all (the lock is taken by a plain
check-then-set). -/
theorem consensusFilter_probe_lock_counterexample :
    (consensusFilter tNodes 1 "0021" (fun _ => none) probeC1).probed ≠ [] ∧
      ((consensusFilter tNodes 1 "0021" (fun _ => none) probeC1).ops).all
        (fun op => !op.isSetNx) = true := by
  constructor
  · decide
  · decide


/-! ## JsNum comparison lemmas for the log sort -/

theorem jsnum_ne_nan_int {n : JsNum} (h : n ≠ JsNum.nan) :
    ∃ z, n = JsNum.int z := by
  cases n with
  | nan => exact absurd rfl h
  | int z => exact ⟨z, rfl⟩

theorem syncLogLe_total (x y : NodeSyncLog) (h : syncLogLe x y = false) :
    syncLogLe y x = true := by
  unfold syncLogLe at h ⊢
  simp only [Bool.not_eq_false'] at h
  simp only [Bool.not_eq_true']
  cases hx : x.blockHeight with
  | nan => rw [hx] at h; simp [JsNum.gt] at h
  | int a =>
      cases hy : y.blockHeight with
      | nan => rw [hx, hy] at h; simp [JsNum.gt] at h
      | int b =>
          rw [hx, hy] at h
          simp only [JsNum.gt, decide_eq_true_eq] at h
          simp only [JsNum.gt, decide_eq_false_iff_not]
          omega

theorem syncLogLe_trans_of_int (x y z : NodeSyncLog)
    (hx : x.blockHeight ≠ JsNum.nan) (hy : y.blockHeight ≠ JsNum.nan)
    (hz : z.blockHeight ≠ JsNum.nan) (hxy : syncLogLe x y = true)
    (hyz : syncLogLe y z = true) : syncLogLe x z = true := by
  rcases jsnum_ne_nan_int hx with ⟨a, ha⟩
  rcases jsnum_ne_nan_int hy with ⟨b, hb⟩
  rcases jsnum_ne_nan_int hz with ⟨c, hc⟩
  unfold syncLogLe at hxy hyz ⊢
  rw [ha, hb] at hxy
  rw [hb, hc] at hyz
  rw [ha, hc]
  simp only [JsNum.gt, Bool.not_eq_true', decide_eq_false_iff_not] at hxy hyz ⊢
  omega

/-- Under the C3 hypotheses the whole admission phase is vacuous: no
guard fires, no node is behind, every probed node is admitted. -/
theorem syncAdmitPhase_admits_everything (sa : Int) (nodes : List Node)
    (key : String) (logs : List NodeSyncLog)
    (hlen : 3 ≤ logs.length)
    (hint : ∀ l ∈ logs, l.blockHeight ≠ JsNum.nan)
    (hmin : ∀ l ∈ (jsSort syncLogLe logs).take 1, l.blockHeight ≠ JsNum.int 0)
    (hsa : 0 ≤ sa) :
    (syncAdmitPhase sa nodes key logs).metrics = [] ∧
      ((syncAdmitPhase sa nodes key logs).result).Perm
        (logs.map (fun l => l.node)) := by
  have hperm := jsSort_perm syncLogLe logs
  have hint2 : ∀ l ∈ jsSort syncLogLe logs, l.blockHeight ≠ JsNum.nan :=
    fun l hl => hint l (hperm.mem_iff.mp hl)
  have hpair : (jsSort syncLogLe logs).Pairwise (fun x y => syncLogLe x y = true) :=
    jsSort_sorted syncLogLe syncLogLe_total logs
      (fun x hx y hy z hz hxy hyz =>
        syncLogLe_trans_of_int x y z (hint x hx) (hint y hy) (hint z hz) hxy hyz)
  obtain ⟨l0, l1, rest, heq⟩ :
      ∃ l0 l1 rest, jsSort syncLogLe logs = l0 :: l1 :: rest := by
    have hl3 : 3 ≤ (jsSort syncLogLe logs).length := by
      rw [hperm.length_eq]; exact hlen
    match hm : jsSort syncLogLe logs with
    | [] => rw [hm] at hl3; simp at hl3
    | [a] => rw [hm] at hl3; simp at hl3
    | a :: b :: t => exact ⟨a, b, t, rfl⟩
  -- the head of the ascending sort is the minimum height
  have hl0mem : l0 ∈ jsSort syncLogLe logs := by rw [heq]; exact List.mem_cons_self _ _
  rcases jsnum_ne_nan_int (hint2 l0 hl0mem) with ⟨z0, hz0⟩
  have hz0ne : z0 ≠ 0 := by
    intro hzz
    have := hmin l0 (by rw [heq]; simp)
    rw [hz0, hzz] at this
    exact this rfl
  have hl0le : ∀ l ∈ jsSort syncLogLe logs, syncLogLe l0 l = true := by
    intro l hl
    rw [heq] at hl hpair
    rcases List.mem_cons.mp hl with h | h
    · rw [h]
      unfold syncLogLe
      rw [hz0]
      simp [JsNum.gt]
    · exact (List.pairwise_cons.mp hpair).1 l h
  -- now reduce the phase
  unfold syncAdmitPhase
  rw [heq]
  dsimp only
  have hinv : topHeightInvalid l0.blockHeight = false := by
    rw [hz0]
    unfold topHeightInvalid
    simp [hz0ne]
  rw [hinv]
  simp only [Bool.false_eq_true, if_false]
  have hl1mem : l1 ∈ jsSort syncLogLe logs := by rw [heq]; simp
  rcases jsnum_ne_nan_int (hint2 l1 hl1mem) with ⟨z1, hz1⟩
  have h01 : z0 ≤ z1 := by
    have := hl0le l1 hl1mem
    unfold syncLogLe at this
    rw [hz0, hz1] at this
    simp only [JsNum.gt, Bool.not_eq_true', decide_eq_false_iff_not] at this
    omega
  have hguard : JsNum.gt l0.blockHeight (JsNum.add l1.blockHeight 1) = false := by
    rw [hz0, hz1]
    simp only [JsNum.add, JsNum.gt, decide_eq_false_iff_not]
    omega
  rw [hguard]
  simp only [Bool.false_eq_true, if_false]
  have hall : ∀ l ∈ jsSort syncLogLe logs,
      JsNum.ge (JsNum.add l.blockHeight sa) l0.blockHeight = true := by
    intro l hl
    rcases jsnum_ne_nan_int (hint2 l hl) with ⟨z, hz⟩
    have hle := hl0le l hl
    unfold syncLogLe at hle
    rw [hz0, hz] at hle
    simp only [JsNum.gt, Bool.not_eq_true', decide_eq_false_iff_not] at hle
    rw [hz, hz0]
    simp only [JsNum.add, JsNum.ge, decide_eq_true_eq]
    omega
  constructor
  · rw [List.filterMap_eq_nil_iff]
    intro l hl
    rw [hall l (heq ▸ hl)]
    simp
  · have hfilter : (jsSort syncLogLe logs).filter
        (fun l => JsNum.ge (JsNum.add l.blockHeight sa) l0.blockHeight) =
          jsSort syncLogLe logs := List.filter_eq_self.mpr hall
    rw [heq] at hfilter
    rw [hfilter]
    rw [← heq]
    exact hperm.map (fun l => l.node)

/-- C3: whenever at least 3 probes succeed, every successfully probed
height is a non-NaN integer, the lowest-sorted height is nonzero and
syncAllowance is nonnegative, the admission loop's out-of-sync branch is
unreachable — the metric trace holds exactly the probe-failure records,
never an `OUT OF SYNC` record — and the returned set is exactly the set
of all successfully probed nodes, because line 110 sorts ascending and
the reference height at index 0 is the minimum. -/
theorem consensusFilter_out_of_sync_unreachable (nodes : List Node) (sa : Int)
    (bc : String) (redis : String → Option RedisVal)
    (probe : Node → ProbeOutcome)
    (hmiss : redis (syncedNodesKeyOf bc nodes) = none)
    (hnolock : redis ("lock-" ++ syncedNodesKeyOf bc nodes) = none)
    (hlen : 3 ≤ (syncLogsOf bc (sortNodesByPublicKey nodes) probe).length)
    (hint : ∀ l ∈ syncLogsOf bc (sortNodesByPublicKey nodes) probe,
      l.blockHeight ≠ JsNum.nan)
    (hmin : ∀ l ∈ (jsSort syncLogLe
        (syncLogsOf bc (sortNodesByPublicKey nodes) probe)).take 1,
      l.blockHeight ≠ JsNum.int 0)
    (hsa : 0 ≤ sa) :
    (consensusFilter nodes sa bc redis probe).metrics =
        probeFailMetricsOf (sortNodesByPublicKey nodes) probe ∧
      ((consensusFilter nodes sa bc redis probe).result).Perm
        ((syncLogsOf bc (sortNodesByPublicKey nodes) probe).map
          (fun l => l.node)) := by
  have hphase := syncAdmitPhase_admits_everything sa (sortNodesByPublicKey nodes)
    (syncedNodesKeyOf bc nodes) (syncLogsOf bc (sortNodesByPublicKey nodes) probe)
    hlen hint hmin hsa
  unfold consensusFilter
  dsimp only
  rw [hmiss, hnolock, if_neg (by omega)]
  exact ⟨by rw [hphase.1, List.append_nil], hphase.2⟩

/-- C3 witness: at the concrete heights [100, 100, 99, 98] no out-of-sync
metric is recorded and all four probed nodes come back. -/
theorem consensusFilter_out_of_sync_unreachable_witness :
    (consensusFilter tNodes 1 "0021" (fun _ => none) probeC1).metrics =
      probeFailMetricsOf (sortNodesByPublicKey tNodes) probeC1 :=
  (consensusFilter_out_of_sync_unreachable tNodes 1 "0021" (fun _ => none)
    probeC1 rfl rfl (by decide) (by decide) (by decide) (by decide)).1

/-! ## fetchApp (C8) -/

/-- C8: `fetchApp` cache discipline — on a cache hit the cached
application is returned with zero repository calls and zero cache
writes; on a miss, exactly one `findById` call is made, followed by
exactly one cache write of the fetched application with TTL 60 seconds,
and the fetched application is returned. -/
theorem fetchApp_cache_discipline (repo : String → Option Applications)
    (st : GatewayState) (id : String) :
    (∀ a, st.appCache id = some a → fetchApp repo st id = (some a, st, [])) ∧
      (∀ app, st.appCache id = none → repo id = some app →
        fetchApp repo st id =
          (some app, setAppCache st id app,
           [AppEvent.repoFind id, AppEvent.cacheWriteApp id app 60])) := by
  constructor
  · intro a ha
    unfold fetchApp
    rw [ha]
  · intro app hnone happ
    unfold fetchApp
    rw [hnone, happ]

def tRepo : String → Option Applications := fun i =>
  if i = "app1" then some ⟨"app1", "pk1"⟩ else none

def emptyState : GatewayState := ⟨fun _ => none, fun _ => none⟩

/-- C8 witness: both branches evaluated concretely — a miss performs the
find + 60-second write, and a hit on the resulting state is pure. -/
theorem fetchApp_cache_discipline_witness :
    fetchApp tRepo emptyState "app1" =
        (some ⟨"app1", "pk1"⟩, setAppCache emptyState "app1" ⟨"app1", "pk1"⟩,
         [AppEvent.repoFind "app1",
          AppEvent.cacheWriteApp "app1" ⟨"app1", "pk1"⟩ 60]) ∧
      fetchApp tRepo (setAppCache emptyState "app1" ⟨"app1", "pk1"⟩) "app1" =
        (some ⟨"app1", "pk1"⟩, setAppCache emptyState "app1" ⟨"app1", "pk1"⟩,
         []) :=
  ⟨(fetchApp_cache_discipline tRepo emptyState "app1").2 ⟨"app1", "pk1"⟩ rfl
      (by decide),
    (fetchApp_cache_discipline tRepo
      (setAppCache emptyState "app1" ⟨"app1", "pk1"⟩) "app1").1
      ⟨"app1", "pk1"⟩ (by decide)⟩


/-! ## Session-fingerprint lemmas (C4) -/

theorem sortNodes_eq_of_perm_nodup (l1 l2 : List Node)
    (hd : (l1.map Node.publicKey).Nodup) (hp : l1.Perm l2) :
    sortNodesByPublicKey l1 = sortNodesByPublicKey l2 := by
  have hd2 : (l2.map Node.publicKey).Nodup := ((hp.map Node.publicKey).nodup_iff).mp hd
  have key : ∀ (l : List Node), (l.map Node.publicKey).Nodup →
      List.Sorted (fun a b : Node => jsStrLt a.publicKey b.publicKey = true)
        (sortNodesByPublicKey l) := by
    intro l hnd
    have hs := sortNodes_sorted l
    have hnd1 : ((sortNodesByPublicKey l).map Node.publicKey).Nodup :=
      (((sortNodes_perm l).map Node.publicKey).nodup_iff).mpr hnd
    have hnd2 : (sortNodesByPublicKey l).Pairwise
        (fun a b => a.publicKey ≠ b.publicKey) := List.pairwise_map.mp hnd1
    refine (hs.and hnd2).imp ?_
    intro a b hab
    rcases hab with ⟨h1, h2⟩
    unfold nodeLe at h1
    simp only [Bool.not_eq_true'] at h1
    cases h3 : jsStrLt a.publicKey b.publicKey with
    | true => rfl
    | false =>
        exfalso
        unfold jsStrLt at h1 h3
        exact h2 (String.ext (charListLt_eq_of_not_lt _ _ h3 h1))
  haveI : IsAntisymm Node (fun a b : Node => jsStrLt a.publicKey b.publicKey = true) :=
    ⟨fun a b h1 h2 => by
      exfalso
      unfold jsStrLt at h1 h2
      rw [charListLt_asymm _ _ h1] at h2
      exact Bool.false_ne_true h2⟩
  exact List.eq_of_perm_of_sorted
    ((sortNodes_perm l1).trans (hp.trans (sortNodes_perm l2).symm))
    (key l1 hd) (key l2 hd2)

theorem strJoinComma_length : ∀ (elems : List String), elems ≠ [] →
    (strJoinComma elems).length + 1 = (elems.map (fun s => s.length + 1)).sum
  | [], h => absurd rfl h
  | [e], _ => by simp [strJoinComma]
  | e :: r :: t, _ => by
      have ih := strJoinComma_length (r :: t) (by simp)
      simp only [strJoinComma, List.map_cons, List.sum_cons] at ih ⊢
      rw [String.length_append, String.length_append]
      have hc : ("," : String).length = 1 := rfl
      omega

theorem nodeJsonElided_length_pos (n : Node) : 0 < (nodeJsonElided n).length := by
  unfold nodeJsonElided
  rw [String.length_append, String.length_append]
  have h14 : ("\x7b\"serviceURL\":" : String).length = 14 := rfl
  omega

theorem canonicalNodeSetJson_length (l : List Node) (h : l ≠ []) :
    (canonicalNodeSetJson l).length + 1 =
      2 + (l.map (fun m => (nodeJsonElided m).length + 1)).sum := by
  unfold canonicalNodeSetJson nodeSetJsonOfSorted
  rw [String.length_append, String.length_append]
  have h1 : ("[" : String).length = 1 := rfl
  have h2 : ("]" : String).length = 1 := rfl
  have hne : (sortNodesByPublicKey l).map nodeJsonElided ≠ [] := by
    intro hh
    apply h
    have hlen0 := congrArg List.length hh
    rw [List.length_map, (sortNodes_perm l).length_eq] at hlen0
    exact List.length_eq_zero.mp hlen0
  have hj := strJoinComma_length ((sortNodesByPublicKey l).map nodeJsonElided) hne
  have hs : (((sortNodesByPublicKey l).map nodeJsonElided).map
      (fun s => s.length + 1)).sum =
        (l.map (fun m => (nodeJsonElided m).length + 1)).sum := by
    rw [List.map_map]
    exact ((sortNodes_perm l).map (fun m => (nodeJsonElided m).length + 1)).sum_eq
  omega

theorem canonicalNodeSetJson_append_ne (l : List Node) (n : Node) :
    canonicalNodeSetJson (l ++ [n]) ≠ canonicalNodeSetJson l := by
  intro heq
  have hlen := congrArg String.length heq
  have hpos : 0 < (nodeJsonElided n).length := nodeJsonElided_length_pos n
  have hL1 := canonicalNodeSetJson_length (l ++ [n]) (by simp)
  rw [List.map_append, List.sum_append] at hL1
  simp only [List.map_cons, List.map_nil, List.sum_cons, List.sum_nil] at hL1
  cases l with
  | nil =>
      have h0 : (canonicalNodeSetJson ([] : List Node)).length = 2 := rfl
      rw [h0] at hlen
      simp only [List.map_nil, List.sum_nil] at hL1
      omega
  | cons a t =>
      have hL0 := canonicalNodeSetJson_length (a :: t) (by simp)
      omega

theorem sha256Round_length (st : List Nat) (kw : Nat × Nat) :
    (sha256Round st kw).length = st.length := by
  unfold sha256Round
  split
  · rfl
  · rfl

theorem foldl_sha256Round_length (l : List (Nat × Nat)) :
    ∀ st : List Nat, (l.foldl sha256Round st).length = st.length := by
  induction l with
  | nil => intro st; rfl
  | cons p t ih =>
      intro st
      rw [List.foldl_cons, ih, sha256Round_length]

theorem sha256Block_length (hv blk : List Nat) (h : hv.length = 8) :
    (sha256Block hv blk).length = 8 := by
  unfold sha256Block
  dsimp only
  rw [List.length_map, List.length_zip, foldl_sha256Round_length, h]
  omega

theorem sha256Words_length (msg : List Nat) : (sha256Words msg).length = 8 := by
  unfold sha256Words
  dsimp only
  have hfold : ∀ (bs : List (List Nat)) (hv : List Nat), hv.length = 8 →
      (bs.foldl (fun h blk => sha256Block h (bytesToWords blk.length blk))
        hv).length = 8 := by
    intro bs
    induction bs with
    | nil => intro hv h; exact h
    | cons b t ih =>
        intro hv h
        rw [List.foldl_cons]
        exact ih _ (sha256Block_length _ _ h)
  exact hfold _ sha256H0 rfl

theorem foldl_append_length : ∀ (l : List String) (acc : String),
    (l.foldl (· ++ ·) acc).length = acc.length + (l.map String.length).sum := by
  intro l
  induction l with
  | nil => intro acc; simp
  | cons s t ih =>
      intro acc
      rw [List.foldl_cons, ih, String.length_append]
      simp only [List.map_cons, List.sum_cons]
      omega

theorem sum_map_const_nat {α : Type} (l : List α) (c : Nat) :
    (l.map (fun _ => c)).sum = c * l.length := by
  induction l with
  | nil => simp
  | cons a t ih =>
      simp only [List.map_cons, List.sum_cons, List.length_cons, ih]
      ring

theorem sessionFingerprint_length (nodes : List Node) :
    (sessionFingerprint nodes).length = 64 := by
  unfold sessionFingerprint sha256HexOfString
  have hjoin : ∀ l : List String, String.join l = l.foldl (· ++ ·) "" :=
    fun l => rfl
  rw [hjoin, foldl_append_length]
  have hmap : ((sha256Words (strToBytes (canonicalNodeSetJson nodes))).map
      wordToHex).map String.length =
        (sha256Words (strToBytes (canonicalNodeSetJson nodes))).map
          (fun _ => 8) := by
    rw [List.map_map]
    rfl
  rw [hmap, sum_map_const_nat, sha256Words_length]
  decide

theorem hexDigit_mem (n : Nat) : hexDigit n ∈ ("0123456789abcdef".data) := by
  unfold hexDigit
  by_cases h : n < ("0123456789abcdef".data).length
  · rw [List.getD_eq_getElem _ _ h]
    exact List.getElem_mem h
  · rw [List.getD_eq_default _ _ (Nat.le_of_not_lt h)]
    decide

theorem mem_foldl_append : ∀ (l : List String) (acc : String) (c : Char),
    c ∈ (l.foldl (· ++ ·) acc).data → c ∈ acc.data ∨ ∃ s ∈ l, c ∈ s.data := by
  intro l
  induction l with
  | nil => intro acc c h; exact Or.inl h
  | cons s t ih =>
      intro acc c h
      rw [List.foldl_cons] at h
      rcases ih (acc ++ s) c h with h2 | h2
      · rcases List.mem_append.mp h2 with h3 | h3
        · exact Or.inl h3
        · exact Or.inr ⟨s, List.mem_cons_self _ _, h3⟩
      · rcases h2 with ⟨s2, hs2, hc⟩
        exact Or.inr ⟨s2, List.mem_cons_of_mem _ hs2, hc⟩

theorem wordToHex_chars (w : Nat) (c : Char) (h : c ∈ (wordToHex w).data) :
    c ∈ ("0123456789abcdef".data) := by
  unfold wordToHex at h
  simp only [List.mem_cons, List.not_mem_nil, or_false] at h
  rcases h with h | h | h | h | h | h | h | h
  all_goals (rw [h]; exact hexDigit_mem _)

theorem sessionFingerprint_hex (nodes : List Node) :
    ∀ c ∈ (sessionFingerprint nodes).data, c ∈ ("0123456789abcdef".data) := by
  intro c hc
  unfold sessionFingerprint sha256HexOfString at hc
  have hjoin : ∀ l : List String, String.join l = l.foldl (· ++ ·) "" :=
    fun l => rfl
  rw [hjoin] at hc
  rcases mem_foldl_append _ "" c hc with h | ⟨s, hs, hcs⟩
  · simp at h
  · rcases List.mem_map.mp hs with ⟨w, _, hw⟩
    exact wordToHex_chars w c (hw ▸ hcs)

/-- C4 counterexample: two node lists containing the same nodes in
different orders whose fingerprints differ.  The two nodes share the
publicKey "a"; the stable sort keeps their relative order, and since the
hashed JSON elides the publicKey but keeps the other fields, the two
orders serialize — and hash — differently. -/
theorem sessionFingerprint_counterexample :
    ([⟨"a", "u1"⟩, ⟨"a", "u2"⟩] : List Node).Perm [⟨"a", "u2"⟩, ⟨"a", "u1"⟩] ∧
      sessionFingerprint [⟨"a", "u1"⟩, ⟨"a", "u2"⟩] ≠
        sessionFingerprint [⟨"a", "u2"⟩, ⟨"a", "u1"⟩] := by
  constructor
  · exact List.Perm.swap _ _ _
  · decide

/-- C4 (amended): the sync cache key is the blockchain ID joined by "-"
with the session fingerprint, a 64-character lowercase-hex SHA-256 of
the canonical JSON of the node set sorted by publicKey with the
publicKey field elided; for every two node lists with pairwise-distinct
publicKeys containing the same nodes in different orders the fingerprint
(and hence the key) is identical, and for every node list, appending one
additional node changes the canonical JSON that is hashed. -/
theorem sessionFingerprint_determinism (bc : String) (l1 l2 : List Node)
    (hd : (l1.map Node.publicKey).Nodup) (hp : l1.Perm l2) :
    sessionFingerprint l1 = sessionFingerprint l2 ∧
      syncedNodesKeyOf bc l1 = syncedNodesKeyOf bc l2 ∧
      (∀ (l : List Node) (n : Node),
        canonicalNodeSetJson (l ++ [n]) ≠ canonicalNodeSetJson l) ∧
      (sessionFingerprint l1).length = 64 ∧
      ∀ c ∈ (sessionFingerprint l1).data, c ∈ ("0123456789abcdef".data) := by
  have hsort := sortNodes_eq_of_perm_nodup l1 l2 hd hp
  have hfp : sessionFingerprint l1 = sessionFingerprint l2 := by
    unfold sessionFingerprint canonicalNodeSetJson
    rw [hsort]
  refine ⟨hfp, ?_, canonicalNodeSetJson_append_ne, sessionFingerprint_length l1,
    sessionFingerprint_hex l1⟩
  unfold syncedNodesKeyOf
  rw [hfp]

/-- C4 witness: fingerprint equality across a concrete reorder of
distinct-key nodes, and the 64-character digest length there. -/
theorem sessionFingerprint_determinism_witness :
    sessionFingerprint [⟨"a", "ua"⟩, ⟨"b", "ub"⟩] =
        sessionFingerprint [⟨"b", "ub"⟩, ⟨"a", "ua"⟩] ∧
      (sessionFingerprint [⟨"a", "ua"⟩, ⟨"b", "ub"⟩]).length = 64 :=
  ⟨(sessionFingerprint_determinism "0021" [⟨"a", "ua"⟩, ⟨"b", "ub"⟩]
      [⟨"b", "ub"⟩, ⟨"a", "ua"⟩] (by decide) (by decide)).1,
    (sessionFingerprint_determinism "0021" [⟨"a", "ua"⟩, ⟨"b", "ub"⟩]
      [⟨"b", "ub"⟩, ⟨"a", "ua"⟩] (by decide) (by decide)).2.2.2.1⟩


/-! ## Load-balancer resolution (C9) -/

/-- An application ID "resolves" on a given cache/repository state:
`fetchApp` yields a record with a truthy (nonempty) `id`. -/
def resolvesApp (repo : String → Option Applications) (st : GatewayState)
    (i : String) : Bool :=
  match st.appCache i with
  | some a => a.id != ""
  | none =>
      match repo i with
      | some a => a.id != ""
      | none => false

/-- Resolution is stable under cache growth by repository records. -/
theorem resolvesApp_congr (repo : String → Option Applications)
    (st st' : GatewayState)
    (hext : ∀ i, st'.appCache i = st.appCache i ∨
      (st.appCache i = none ∧ st'.appCache i = repo i)) (i : String) :
    resolvesApp repo st' i = resolvesApp repo st i := by
  unfold resolvesApp
  rcases hext i with h | ⟨h0, h1⟩
  · rw [h]
  · rw [h0, h1]
    cases hr : repo i with
    | some a => rfl
    | none => rfl

theorem verifyLoop_spec (repo : String → Option Applications)
    (hrepoWF : ∀ i a, repo i = some a → a.id = i) :
    ∀ (ids : List String) (st : GatewayState),
      (∀ i a, st.appCache i = some a → a.id = i) →
      (verifyLoop repo st ids).1 = ids.filter (resolvesApp repo st) ∧
        (∀ i, (verifyLoop repo st ids).2.1.appCache i = st.appCache i ∨
          (st.appCache i = none ∧
            (verifyLoop repo st ids).2.1.appCache i = repo i)) ∧
        (verifyLoop repo st ids).2.1.idsCache = st.idsCache := by
  intro ids
  induction ids with
  | nil =>
      intro st hcw
      exact ⟨rfl, fun i => Or.inl rfl, rfl⟩
  | cons id rest ih =>
      intro st hcw
      cases hc : st.appCache id with
      | some a =>
          have hfa : fetchApp repo st id = (some a, st, []) := by
            unfold fetchApp; rw [hc]
          have hv : verifyLoop repo st (id :: rest) =
              (if a.id ≠ "" then a.id :: (verifyLoop repo st rest).1
               else (verifyLoop repo st rest).1,
               (verifyLoop repo st rest).2.1,
               [] ++ (verifyLoop repo st rest).2.2) := by
            simp only [verifyLoop]
            rw [hfa]
          have hres : resolvesApp repo st id = (a.id != "") := by
            unfold resolvesApp; rw [hc]
          have hid : a.id = id := hcw id a hc
          obtain ⟨ih1, ih2, ih3⟩ := ih st hcw
          refine ⟨?_, ?_, ?_⟩
          · rw [hv, List.filter_cons, hres]
            dsimp only
            rw [hid, ih1]
            by_cases hz : id = ""
            · simp [hz]
            · simp [hz, bne_iff_ne]
          · rw [hv]
            exact ih2
          · rw [hv]
            exact ih3
      | none =>
          cases hr : repo id with
          | some app =>
              have hfa : fetchApp repo st id =
                  (some app, setAppCache st id app,
                   [AppEvent.repoFind id, AppEvent.cacheWriteApp id app 60]) := by
                unfold fetchApp; rw [hc, hr]
              have hid : app.id = id := hrepoWF id app hr
              have hv : verifyLoop repo st (id :: rest) =
                  (if app.id ≠ "" then
                     app.id :: (verifyLoop repo (setAppCache st id app) rest).1
                   else (verifyLoop repo (setAppCache st id app) rest).1,
                   (verifyLoop repo (setAppCache st id app) rest).2.1,
                   [AppEvent.repoFind id, AppEvent.cacheWriteApp id app 60] ++
                     (verifyLoop repo (setAppCache st id app) rest).2.2) := by
                simp only [verifyLoop]
                rw [hfa]
              have hcw1 : ∀ i b,
                  (setAppCache st id app).appCache i = some b → b.id = i := by
                intro i b hb
                unfold setAppCache at hb
                dsimp only at hb
                by_cases hi : i = id
                · rw [if_pos hi] at hb
                  cases hb
                  rw [hid, hi]
                · rw [if_neg hi] at hb
                  exact hcw i b hb
              have hext1 : ∀ i, (setAppCache st id app).appCache i =
                  st.appCache i ∨ (st.appCache i = none ∧
                    (setAppCache st id app).appCache i = repo i) := by
                intro i
                unfold setAppCache
                dsimp only
                by_cases hi : i = id
                · rw [if_pos hi, hi]
                  exact Or.inr ⟨hc, hr.symm⟩
                · rw [if_neg hi]
                  exact Or.inl rfl
              obtain ⟨ih1, ih2, ih3⟩ := ih (setAppCache st id app) hcw1
              have hres : resolvesApp repo st id = (app.id != "") := by
                unfold resolvesApp; rw [hc, hr]
              have hfcongr : rest.filter (resolvesApp repo (setAppCache st id app)) =
                  rest.filter (resolvesApp repo st) :=
                List.filter_congr (fun x _ =>
                  resolvesApp_congr repo st (setAppCache st id app) hext1 x)
              refine ⟨?_, ?_, ?_⟩
              · rw [hv, List.filter_cons, hres]
                dsimp only
                rw [hid, ih1, hfcongr]
                by_cases hz : id = ""
                · simp [hz]
                · simp [hz, bne_iff_ne]
              · rw [hv]
                dsimp only
                intro i
                rcases ih2 i with h | ⟨h0, h1⟩
                · rw [h]
                  exact hext1 i
                · rcases hext1 i with h2 | ⟨h20, h21⟩
                  · rw [h2] at h0
                    exact Or.inr ⟨h0, h1⟩
                  · exact Or.inr ⟨h20, h1⟩
              · rw [hv]
                dsimp only
                rw [ih3]
                rfl
          | none =>
              have hfa : fetchApp repo st id = (none, st, [AppEvent.repoFind id]) := by
                unfold fetchApp; rw [hc, hr]
              have hv : verifyLoop repo st (id :: rest) =
                  ((verifyLoop repo st rest).1,
                   (verifyLoop repo st rest).2.1,
                   [AppEvent.repoFind id] ++ (verifyLoop repo st rest).2.2) := by
                simp only [verifyLoop]
                rw [hfa]
              have hres : resolvesApp repo st id = false := by
                unfold resolvesApp; rw [hc, hr]
              obtain ⟨ih1, ih2, ih3⟩ := ih st hcw
              refine ⟨?_, ?_, ?_⟩
              · rw [hv, List.filter_cons, hres]
                dsimp only
                simp only [Bool.false_eq_true, if_false]
                exact ih1
              · rw [hv]
                exact ih2
              · rw [hv]
                exact ih3


theorem jsRandomIndex_lt (r : ℚ) (n : Nat) (h0 : 0 ≤ r) (h1 : r < 1)
    (hn : 0 < n) : jsRandomIndex r n < n := by
  unfold jsRandomIndex
  have hnq : (0 : ℚ) < (n : ℚ) := by exact_mod_cast hn
  have hub : r * (n : ℚ) < (n : ℚ) := by
    calc r * (n : ℚ) < 1 * (n : ℚ) := mul_lt_mul_of_pos_right h1 hnq
    _ = (n : ℚ) := one_mul _
  have hfl : ⌊r * (n : ℚ)⌋ < (n : ℤ) := Int.floor_lt.mpr (by exact_mod_cast hub)
  have hfl0 : 0 ≤ ⌊r * (n : ℚ)⌋ := Int.floor_nonneg.mpr
    (mul_nonneg h0 (le_of_lt hnq))
  omega

/-- C9: load-balancer resolution, on the fresh-build path (no cached
verified-ID list), assuming the external repository and the application
cache are well-formed (`findById i` returns the record with id `i`, as
cached records were written by `fetchApp`): application IDs that do not
resolve to an existing application (with a truthy id) are silently
dropped from the verified list; if the verified list is empty the call
fails with the terminal Forbidden ('Load Balancer configuration
invalid', status 403); otherwise, for the random index
`pick = Math.floor(Math.random() * verified.length)`, it returns exactly
one application whose ID is the pick-th member of the verified list —
so a uniform `Math.random()` draw picks uniformly among the verified
entries, and the index is always in range. -/
theorem fetchRandomLoadBalancerApplication_resolution
    (repo : String → Option Applications) (st : GatewayState) (lbId : String)
    (applicationIDs : List String) (pick : Nat)
    (hrepoWF : ∀ i a, repo i = some a → a.id = i)
    (hcacheWF : ∀ i a, st.appCache i = some a → a.id = i)
    (hmiss : st.idsCache ("applicationIDs-" ++ lbId) = none) :
    (verifyLoop repo st applicationIDs).1 =
        applicationIDs.filter (resolvesApp repo st) ∧
      ((verifyLoop repo st applicationIDs).1 = [] →
        (fetchRandomLoadBalancerApplication repo st lbId applicationIDs
            pick).1 =
          Except.error (HttpError.forbidden "Load Balancer configuration invalid")) ∧
      (pick < (verifyLoop repo st applicationIDs).1.length →
        ∃ a, (fetchRandomLoadBalancerApplication repo st lbId applicationIDs
              pick).1 = Except.ok a ∧
          a.id = ((verifyLoop repo st applicationIDs).1).getD pick "" ∧
          a.id ∈ (verifyLoop repo st applicationIDs).1) ∧
      (∀ r : ℚ, 0 ≤ r → r < 1 →
        0 < (verifyLoop repo st applicationIDs).1.length →
        jsRandomIndex r (verifyLoop repo st applicationIDs).1.length <
          (verifyLoop repo st applicationIDs).1.length) := by
  obtain ⟨h1, hext, hids⟩ := verifyLoop_spec repo hrepoWF applicationIDs st hcacheWF
  refine ⟨h1, ?_, ?_, fun r hr0 hr1 hlen => jsRandomIndex_lt r _ hr0 hr1 hlen⟩
  · intro hV
    unfold fetchRandomLoadBalancerApplication
    dsimp only
    rw [hmiss]
    dsimp only
    rw [hV]
    rw [if_pos (by simp)]
  · intro hpick
    have hvid_mem : ((verifyLoop repo st applicationIDs).1).getD pick "" ∈
        (verifyLoop repo st applicationIDs).1 := by
      rw [List.getD_eq_getElem _ _ hpick]
      exact List.getElem_mem hpick
    have hvid_filter : ((verifyLoop repo st applicationIDs).1).getD pick "" ∈
        applicationIDs.filter (resolvesApp repo st) := by
      rw [← h1]
      exact hvid_mem
    obtain ⟨hvin, hres⟩ := List.mem_filter.mp hvid_filter
    have hfetch : ∃ a,
        (fetchApp repo
          (setIdsCache (verifyLoop repo st applicationIDs).2.1
            ("applicationIDs-" ++ lbId) (verifyLoop repo st applicationIDs).1)
          (((verifyLoop repo st applicationIDs).1).getD pick "")).1 = some a ∧
        a.id = ((verifyLoop repo st applicationIDs).1).getD pick "" := by
      have hst2 : (setIdsCache (verifyLoop repo st applicationIDs).2.1
          ("applicationIDs-" ++ lbId)
          (verifyLoop repo st applicationIDs).1).appCache =
            (verifyLoop repo st applicationIDs).2.1.appCache := rfl
      unfold fetchApp
      rw [hst2]
      cases hst1 : (verifyLoop repo st applicationIDs).2.1.appCache
          (((verifyLoop repo st applicationIDs).1).getD pick "") with
      | some b =>
          refine ⟨b, rfl, ?_⟩
          rcases hext (((verifyLoop repo st applicationIDs).1).getD pick "")
            with h | ⟨h0, h2⟩
          · rw [hst1] at h
            exact hcacheWF _ b h.symm
          · rw [hst1] at h2
            exact hrepoWF _ b h2.symm
      | none =>
          unfold resolvesApp at hres
          rcases hext (((verifyLoop repo st applicationIDs).1).getD pick "")
            with h | ⟨h0, h2⟩
          · rw [hst1] at h
            rw [← h] at hres
            dsimp only at hres
            cases hrv : repo (((verifyLoop repo st applicationIDs).1).getD
                pick "") with
            | some a =>
                exact ⟨a, rfl, hrepoWF _ a hrv⟩
            | none =>
                rw [hrv] at hres
                simp at hres
          · rw [hst1] at h2
            rw [h0] at hres
            dsimp only at hres
            rw [← h2] at hres
            simp at hres
    rcases hfetch with ⟨a, hfa, haid⟩
    refine ⟨a, ?_, haid, by rw [haid]; exact hvid_mem⟩
    unfold fetchRandomLoadBalancerApplication
    dsimp only
    rw [hmiss]
    dsimp only
    rw [if_neg (by omega)]
    rw [hfa]

def tRepo2 : String → Option Applications := fun i =>
  if i = "x" then some ⟨"x", "px"⟩
  else if i = "y" then some ⟨"y", "py"⟩ else none

theorem tRepo2_wf : ∀ i a, tRepo2 i = some a → a.id = i := by
  intro i a h
  unfold tRepo2 at h
  by_cases hx : i = "x"
  · rw [if_pos hx] at h
    cases h
    exact hx.symm
  · rw [if_neg hx] at h
    by_cases hy : i = "y"
    · rw [if_pos hy] at h
      cases h
      exact hy.symm
    · rw [if_neg hy] at h
      cases h

theorem emptyState_wf : ∀ i a, emptyState.appCache i = some a → a.id = i := by
  intro i a h
  exact Option.noConfusion h

/-- C9 witness: a concrete load balancer referencing one missing ID — the
verified list is the filtered one, and pick 1 returns the application
whose ID is the second verified entry. -/
theorem fetchRandomLoadBalancerApplication_resolution_witness :
    (verifyLoop tRepo2 emptyState ["x", "zz", "y"]).1 =
        ["x", "zz", "y"].filter (resolvesApp tRepo2 emptyState) ∧
      ∃ a, (fetchRandomLoadBalancerApplication tRepo2 emptyState "lb1"
            ["x", "zz", "y"] 1).1 = Except.ok a ∧
        a.id = ((verifyLoop tRepo2 emptyState ["x", "zz", "y"]).1).getD 1 "" ∧
        a.id ∈ (verifyLoop tRepo2 emptyState ["x", "zz", "y"]).1 :=
  ⟨(fetchRandomLoadBalancerApplication_resolution tRepo2 emptyState "lb1"
      ["x", "zz", "y"] 1 tRepo2_wf emptyState_wf rfl).1,
    (fetchRandomLoadBalancerApplication_resolution tRepo2 emptyState "lb1"
      ["x", "zz", "y"] 1 tRepo2_wf emptyState_wf rfl).2.2.1 (by decide)⟩


end Gateway
